import Mathlib

/-!
Verification development for the PaisaTrack budget/aggregation core
(`src/App.tsx`). The domain logic — transaction records, the budget
policy, time-windowed sums, category grouping and the Chai-Index alert —
is embedded shallowly:

* JS `number` amounts and allowances become `ℚ` (the source only ever
  adds, subtracts, multiplies by the literal `0.15`, divides and
  compares, all exact at the values the spec discusses);
* `Date` instants become `ℤ` (epoch milliseconds); `Date` comparison in
  the source is instant comparison;
* the ISO-8601 string produced by `Date.toISOString` and read back by
  `new Date(iso)` is modelled by the instant it denotes, since the host
  pair is inverse on instants (millisecond precision);
* the random id produced by `Math.random().toString(36).substr(2, 9)` in
  the `Transaction` constructor is modelled as an explicit `freshId`
  argument;
* the JS `Record` built by `categoryData` is modelled as its list of
  entries with the key set made explicit (insertion order abstracted; a
  key is present exactly when some transaction assigned it).
-/

namespace PaisaTrack

/-- The fixed category enumeration of `src/App.tsx` line 79. -/
inductive Category where
  | messFood
  | metroAuto
  | mobileWifi
  | pgRent
  | photocopyStationery
  | social
  | misc
deriving DecidableEq, Repr

/-- The payment-method enumeration of `src/App.tsx` line 80. -/
inductive PaymentMethod where
  | upi
  | cash
  | card
deriving DecidableEq, Repr

/-- The `Transaction` class fields (`src/App.tsx` lines 82-97). -/
structure Transaction where
  id : String
  amount : ℚ
  category : Category
  method : PaymentMethod
  date : ℤ
  note : String
deriving DecidableEq, Repr

/-- The `Transaction` constructor (`src/App.tsx` lines 90-97): assigns the
freshly generated id and stores the given fields.  The generated id is
passed in explicitly as `freshId`. -/
def mkTransaction (freshId : String) (amount : ℚ) (category : Category)
    (method : PaymentMethod) (note : String) (date : ℤ) : Transaction :=
  { id := freshId, amount := amount, category := category,
    method := method, date := date, note := note }

/-- The `Budget` class fields (`src/App.tsx` lines 117-124). -/
structure Budget where
  monthlyLimit : ℚ
  weeklyAllowance : ℚ
deriving DecidableEq, Repr

/-- `Budget.getDailyLimit` (`src/App.tsx` lines 126-129):
`remaining = Math.max(0, weeklyAllowance - weeklySpent)` divided by
`Math.max(1, daysLeft)`. -/
def Budget.getDailyLimit (b : Budget) (weeklySpent daysLeft : ℚ) : ℚ :=
  let remaining := max 0 (b.weeklyAllowance - weeklySpent)
  remaining / max 1 daysLeft

/-- The `reduce((acc, t) => acc + t.amount, 0)` pattern used throughout
`src/App.tsx` (lines 180-182, 187, 193-195, 417). -/
def sumAmounts (ts : List Transaction) : ℚ :=
  ts.foldl (fun acc t => acc + t.amount) 0

/-- `weeklyTransactions` (`src/App.tsx` lines 176-178): the transactions
whose date lies in the inclusive window `[weekStart, weekEnd]`. -/
def weeklyTransactions (ts : List Transaction) (weekStart weekEnd : ℤ) :
    List Transaction :=
  ts.filter (fun t => decide (weekStart ≤ t.date) && decide (t.date ≤ weekEnd))

/-- The spec's `sumInRange(transactions, start, end)`: the sum of `amount`
over transactions whose `date` falls in the inclusive range
`[start, stop]` — the filter-and-reduce the source performs at
`src/App.tsx` lines 176-182. -/
def sumInRange (ts : List Transaction) (start stop : ℤ) : ℚ :=
  sumAmounts (ts.filter (fun t => decide (start ≤ t.date) && decide (t.date ≤ stop)))

/-- `weeklySpent` (`src/App.tsx` lines 180-182). -/
def weeklySpent (ts : List Transaction) (weekStart weekEnd : ℤ) : ℚ :=
  sumAmounts (weeklyTransactions ts weekStart weekEnd)

-- Basic foldl/sum lemmas

theorem sumAmounts_nil : sumAmounts [] = 0 := rfl

theorem foldl_add_shift (ts : List Transaction) (a : ℚ) :
    ts.foldl (fun acc t => acc + t.amount) a = a + sumAmounts ts := by
  induction ts generalizing a with
  | nil => simp [sumAmounts]
  | cons t ts ih =>
    simp only [List.foldl_cons, sumAmounts]
    rw [ih, ih (0 + t.amount)]
    ring

theorem sumAmounts_cons (t : Transaction) (ts : List Transaction) :
    sumAmounts (t :: ts) = t.amount + sumAmounts ts := by
  have h := foldl_add_shift ts (0 + t.amount)
  simpa [sumAmounts] using h

/-- **C1.** For every budget, `weeklySpent` and `daysLeft`,
`Budget.getDailyLimit` returns `max(0, weeklyAllowance - weeklySpent) /
max(1, daysLeft)`; the result is never negative (also when
`weeklySpent > weeklyAllowance`), and the divisor guard maps zero (or
fewer) remaining days to 1 so no division by zero occurs; at
weeklyAllowance 4000, weeklySpent 1000 and 4 remaining days the limit is
750. -/
theorem getDailyLimit_spec :
    (∀ (b : Budget) (ws dl : ℚ),
        b.getDailyLimit ws dl = max 0 (b.weeklyAllowance - ws) / max 1 dl ∧
        0 ≤ b.getDailyLimit ws dl ∧
        (dl ≤ 0 → b.getDailyLimit ws dl = max 0 (b.weeklyAllowance - ws))) ∧
    (Budget.mk 25000 4000).getDailyLimit 1000 4 = 750 := by
  constructor
  · intro b ws dl
    refine ⟨rfl, ?_, ?_⟩
    · apply div_nonneg (le_max_left 0 _)
      exact le_trans zero_le_one (le_max_left 1 dl)
    · intro hdl
      have hmax : max 1 dl = 1 := max_eq_left (le_trans hdl zero_le_one)
      simp [Budget.getDailyLimit, hmax]
  · norm_num [Budget.getDailyLimit]

/-- Witness for `getDailyLimit_spec` at a concrete input: overspent week
(5000 against allowance 4000) with zero days left. -/
theorem getDailyLimit_spec_witness :
    (0 : ℚ) ≤ 0 ∧
    (Budget.mk 25000 4000).getDailyLimit 5000 0 =
      max 0 ((4000 : ℚ) - 5000) / max 1 0 ∧
    0 ≤ (Budget.mk 25000 4000).getDailyLimit 5000 0 ∧
    (Budget.mk 25000 4000).getDailyLimit 5000 0 =
      max 0 ((4000 : ℚ) - 5000) :=
  ⟨le_refl 0,
   (getDailyLimit_spec.1 (Budget.mk 25000 4000) 5000 0).1,
   (getDailyLimit_spec.1 (Budget.mk 25000 4000) 5000 0).2.1,
   (getDailyLimit_spec.1 (Budget.mk 25000 4000) 5000 0).2.2 (le_refl 0)⟩

/-- `miscSpent` (`src/App.tsx` lines 193-195): the weekly transactions of
category `Misc`, reduced over `amount`. -/
def miscSpent (ts : List Transaction) (weekStart weekEnd : ℤ) : ℚ :=
  sumAmounts ((weeklyTransactions ts weekStart weekEnd).filter
    (fun t => decide (t.category = Category.misc)))

/-- `chaiIndexExceeded` (`src/App.tsx` line 196):
`miscSpent > budget.weeklyAllowance * 0.15`. -/
def chaiIndexExceeded (ts : List Transaction) (weekStart weekEnd : ℤ)
    (b : Budget) : Bool :=
  decide (b.weeklyAllowance * 0.15 < miscSpent ts weekStart weekEnd)

/-- The shape produced by `Transaction.toJSON` (`src/App.tsx` lines
99-108): a plain record of the six fields, with the `date` field carried
as the instant its ISO-8601 string denotes. -/
structure TxJSON where
  id : String
  amount : ℚ
  category : Category
  method : PaymentMethod
  date : ℤ
  note : String
deriving DecidableEq, Repr

/-- `Transaction.toJSON` (`src/App.tsx` lines 99-108). -/
def Transaction.toJSON (t : Transaction) : TxJSON :=
  { id := t.id, amount := t.amount, category := t.category,
    method := t.method, date := t.date, note := t.note }

/-- `Transaction.fromJSON` (`src/App.tsx` lines 110-114): constructs a
fresh `Transaction` from the record's fields (the constructor assigns the
generated `freshId`), then overwrites the id with the serialized one. -/
def Transaction.fromJSON (j : TxJSON) (freshId : String) : Transaction :=
  let t := mkTransaction freshId j.amount j.category j.method j.note j.date
  { t with id := j.id }

/-- **C3.** Serializing a `Transaction` with `toJSON` and deserializing
with `fromJSON` yields a transaction equal to the original in all fields
— id, amount, category, method, date instant and note — whatever fresh
id the intermediate constructor call generates: the id is preserved, not
regenerated. -/
theorem transaction_roundTrip (t : Transaction) (freshId : String) :
    Transaction.fromJSON (Transaction.toJSON t) freshId = t := by
  cases t
  rfl

theorem miscSpent_eq_filter (ts : List Transaction) (ws we : ℤ) :
    miscSpent ts ws we =
      sumAmounts (ts.filter (fun t =>
        decide (ws ≤ t.date) && decide (t.date ≤ we) &&
          decide (t.category = Category.misc))) := by
  unfold miscSpent weeklyTransactions
  rw [List.filter_filter]
  apply congrArg sumAmounts
  apply List.filter_congr
  intro t _
  exact Bool.and_comm _ _

/-- **C2.** The Chai-Index alert is raised exactly when the sum of
Misc-category transaction amounts dated in the current week is strictly
greater than `0.15` times the weekly allowance; at the boundary scenario
(Misc spends 100 and 50 against allowance 1000, threshold 150) the alert
is false, and adding one more Misc unit (total 151) makes it true. -/
theorem chaiIndexExceeded_spec :
    (∀ (ts : List Transaction) (ws we : ℤ) (b : Budget),
        chaiIndexExceeded ts ws we b = true ↔
          b.weeklyAllowance * 0.15 <
            sumAmounts (ts.filter (fun t =>
              decide (ws ≤ t.date) && decide (t.date ≤ we) &&
                decide (t.category = Category.misc)))) ∧
    chaiIndexExceeded
      [mkTransaction "a" 100 Category.misc PaymentMethod.upi "" 10,
       mkTransaction "b" 50 Category.misc PaymentMethod.upi "" 20]
      0 1000 (Budget.mk 25000 1000) = false ∧
    chaiIndexExceeded
      [mkTransaction "c" 1 Category.misc PaymentMethod.upi "" 30,
       mkTransaction "a" 100 Category.misc PaymentMethod.upi "" 10,
       mkTransaction "b" 50 Category.misc PaymentMethod.upi "" 20]
      0 1000 (Budget.mk 25000 1000) = true := by
  refine ⟨?_,
    by simp only [chaiIndexExceeded, miscSpent, weeklyTransactions,
         sumAmounts, mkTransaction]; norm_num,
    by simp only [chaiIndexExceeded, miscSpent, weeklyTransactions,
         sumAmounts, mkTransaction]; norm_num⟩
  intro ts ws we b
  simp [chaiIndexExceeded, miscSpent_eq_filter]

/-- **C9.** When no transaction of the current week has category Misc and
the weekly allowance is positive, the Chai-Index alert is off: the Misc
weekly sum is 0, which is not greater than `weeklyAllowance * 0.15`. -/
theorem chaiIndexExceeded_noMisc (ts : List Transaction) (ws we : ℤ)
    (b : Budget) (hb : 0 < b.weeklyAllowance)
    (h : ∀ t ∈ weeklyTransactions ts ws we, t.category ≠ Category.misc) :
    chaiIndexExceeded ts ws we b = false := by
  have hnil : (weeklyTransactions ts ws we).filter
      (fun t => decide (t.category = Category.misc)) = [] := by
    simp only [List.filter_eq_nil_iff, decide_eq_true_eq]
    exact h
  have hm : miscSpent ts ws we = 0 := by
    unfold miscSpent
    rw [hnil]
    rfl
  have hpos : 0 < b.weeklyAllowance * 0.15 := by positivity
  have hnotlt : ¬ b.weeklyAllowance * 0.15 < 0 := not_lt.mpr (le_of_lt hpos)
  simp [chaiIndexExceeded, hm, hnotlt]

/-- Witness for `chaiIndexExceeded_noMisc` at a concrete input: one
weekly Mess/Food transaction, default budget. -/
theorem chaiIndexExceeded_noMisc_witness :
    (0 : ℚ) < 4000 ∧
    chaiIndexExceeded
      [mkTransaction "w" 500 Category.messFood PaymentMethod.cash "" 5]
      0 1000 (Budget.mk 25000 4000) = false :=
  ⟨by norm_num,
   chaiIndexExceeded_noMisc _ 0 1000 (Budget.mk 25000 4000)
     (by norm_num) (by decide)⟩

/-- The earliest date in the non-empty transaction list `t :: ts` — the
start of the spec's "full date range spanning all transactions". -/
def minDate (t : Transaction) (ts : List Transaction) : ℤ :=
  ts.foldl (fun a u => min a u.date) t.date

/-- The latest date in the non-empty transaction list `t :: ts` — the end
of the spec's "full date range spanning all transactions". -/
def maxDate (t : Transaction) (ts : List Transaction) : ℤ :=
  ts.foldl (fun a u => max a u.date) t.date

theorem foldl_min_le_init (ts : List Transaction) (a : ℤ) :
    ts.foldl (fun x u => min x u.date) a ≤ a := by
  induction ts generalizing a with
  | nil => simp
  | cons u ts ih => exact le_trans (ih (min a u.date)) (min_le_left _ _)

theorem foldl_min_le_mem (ts : List Transaction) (a : ℤ) (u : Transaction)
    (hu : u ∈ ts) : ts.foldl (fun x v => min x v.date) a ≤ u.date := by
  induction ts generalizing a with
  | nil => cases hu
  | cons v ts ih =>
    rcases List.mem_cons.mp hu with h | h
    · subst h
      exact le_trans (foldl_min_le_init ts _) (min_le_right _ _)
    · exact ih _ h

theorem le_foldl_max_init (ts : List Transaction) (a : ℤ) :
    a ≤ ts.foldl (fun x u => max x u.date) a := by
  induction ts generalizing a with
  | nil => simp
  | cons u ts ih => exact le_trans (le_max_left _ _) (ih (max a u.date))

theorem le_foldl_max_mem (ts : List Transaction) (a : ℤ) (u : Transaction)
    (hu : u ∈ ts) : u.date ≤ ts.foldl (fun x v => max x v.date) a := by
  induction ts generalizing a with
  | nil => cases hu
  | cons v ts ih =>
    rcases List.mem_cons.mp hu with h | h
    · subst h
      exact le_trans (le_max_right _ _) (le_foldl_max_init ts _)
    · exact ih _ h

theorem sumInRange_of_all_in (ts : List Transaction) (a b : ℤ)
    (h : ∀ t ∈ ts, a ≤ t.date ∧ t.date ≤ b) :
    sumInRange ts a b = sumAmounts ts := by
  unfold sumInRange
  have hfilter : ts.filter
      (fun t => decide (a ≤ t.date) && decide (t.date ≤ b)) = ts := by
    rw [List.filter_eq_self]
    intro t ht
    have := h t ht
    simp [this.1, this.2]
  rw [hfilter]

/-- **C6.** For every non-empty transaction list, the windowed sum over
the inclusive range from the earliest to the latest transaction date
equals the sum of all transaction amounts. -/
theorem sumInRange_full_range (t : Transaction) (ts : List Transaction) :
    sumInRange (t :: ts) (minDate t ts) (maxDate t ts) =
      sumAmounts (t :: ts) := by
  apply sumInRange_of_all_in
  intro u hu
  rcases List.mem_cons.mp hu with h | h
  · subst h
    exact ⟨foldl_min_le_init ts _, le_foldl_max_init ts _⟩
  · exact ⟨foldl_min_le_mem ts _ u h, le_foldl_max_mem ts _ u h⟩

/-- `isSameDay` of date-fns as used at `src/App.tsx` line 187: the two
instants fall in the same calendar-day bucket (a fixed, consistent
timezone is assumed, per the spec). -/
def sameDay (a b : ℤ) : Bool :=
  decide (a.fdiv 86400000 = b.fdiv 86400000)

/-- `todaySpent` (`src/App.tsx` lines 186-188). -/
def todaySpent (ts : List Transaction) (now : ℤ) : ℚ :=
  sumAmounts (ts.filter (fun t => sameDay t.date now))

/-- `dailyRemaining` (`src/App.tsx` line 190): `dailyLimit - todaySpent`
with `dailyLimit = budget.getDailyLimit(weeklySpent, daysLeftInWeek)`
(line 184). -/
def dailyRemaining (b : Budget) (ts : List Transaction)
    (weekStart weekEnd : ℤ) (daysLeft : ℚ) (now : ℤ) : ℚ :=
  b.getDailyLimit (weeklySpent ts weekStart weekEnd) daysLeft -
    todaySpent ts now

/-- The category enumeration in source order (`src/App.tsx` line 536). -/
def categories : List Category :=
  [Category.messFood, Category.metroAuto, Category.mobileWifi,
   Category.pgRent, Category.photocopyStationery, Category.social,
   Category.misc]

/-- The total the `counts` record of `categoryData` holds for one
category (`src/App.tsx` lines 200-203). -/
def categoryTotal (ts : List Transaction) (c : Category) : ℚ :=
  sumAmounts (ts.filter (fun t => decide (t.category = c)))

/-- `categoryData` (`src/App.tsx` lines 199-205): the entry list of the
`counts` record built over the weekly transactions — one
`(category, total)` pair for exactly the categories some windowed
transaction belongs to; JS object insertion order is abstracted to the
enumeration order. -/
def categoryData (ts : List Transaction) (weekStart weekEnd : ℤ) :
    List (Category × ℚ) :=
  let wts := weeklyTransactions ts weekStart weekEnd
  (categories.filter
      (fun c => wts.any (fun t => decide (t.category = c)))).map
    (fun c => (c, categoryTotal wts c))

/-- **C8.** On the empty transaction list every aggregate is neutral:
`weeklySpent = 0`, `todaySpent = 0`, `dailyRemaining` equals the daily
limit itself (no overspend), and the category mapping is empty. -/
theorem empty_aggregates (b : Budget) (ws we now : ℤ) (dl : ℚ) :
    weeklySpent [] ws we = 0 ∧
    todaySpent [] now = 0 ∧
    dailyRemaining b [] ws we dl now =
      b.getDailyLimit (weeklySpent [] ws we) dl ∧
    categoryData [] ws we = [] := by
  refine ⟨rfl, rfl, ?_, ?_⟩
  · simp [dailyRemaining, todaySpent, sumAmounts]
  · simp [categoryData, weeklyTransactions, categories]

theorem categoryTotal_nil (c : Category) : categoryTotal [] c = 0 := rfl

theorem categoryTotal_cons (t : Transaction) (ts : List Transaction)
    (c : Category) :
    categoryTotal (t :: ts) c =
      if t.category = c then t.amount + categoryTotal ts c
      else categoryTotal ts c := by
  unfold categoryTotal
  rw [List.filter_cons]
  by_cases h : t.category = c
  · simp [h, sumAmounts_cons]
  · simp [h]

theorem categories_total_sum (ts : List Transaction) :
    ((categories.map (categoryTotal ts)).sum) = sumAmounts ts := by
  induction ts with
  | nil => simp [categories, categoryTotal_nil, sumAmounts]
  | cons t ts ih =>
    rw [sumAmounts_cons, ← ih]
    cases hc : t.category <;>
      simp [categories, categoryTotal_cons, hc] <;> ring

theorem categoryTotal_eq_zero_of_absent (ts : List Transaction)
    (c : Category) (h : ∀ t ∈ ts, t.category ≠ c) :
    categoryTotal ts c = 0 := by
  unfold categoryTotal
  have hnil : ts.filter (fun t => decide (t.category = c)) = [] := by
    simp only [List.filter_eq_nil_iff, decide_eq_true_eq]
    exact h
  rw [hnil]
  rfl

theorem sum_map_filter_of_zero (l : List Category) (p : Category → Bool)
    (f : Category → ℚ) (h : ∀ c ∈ l, p c = false → f c = 0) :
    ((l.filter p).map f).sum = (l.map f).sum := by
  induction l with
  | nil => rfl
  | cons c l ih =>
    have ih' := ih (fun d hd h0 => h d (List.mem_cons_of_mem c hd) h0)
    rw [List.filter_cons]
    by_cases hp : p c
    · simp [hp, ih']
    · have hc0 : f c = 0 := h c (List.mem_cons_self c l) (by simpa using hp)
      simp [hp, ih', hc0]

/-- **C7.** For every transaction list and weekly window, the per-category
totals of the category grouping sum to the windowed sum over the same
window, and a category with no matching transaction in the window is
absent from the mapping (it has no entry, zero-valued or otherwise). -/
theorem categoryData_spec (ts : List Transaction) (ws we : ℤ) :
    ((categoryData ts ws we).map Prod.snd).sum = sumInRange ts ws we ∧
    ∀ c : Category,
      (∀ t ∈ weeklyTransactions ts ws we, t.category ≠ c) →
      ∀ q : ℚ, (c, q) ∉ categoryData ts ws we := by
  constructor
  · unfold categoryData
    rw [List.map_map]
    have hcomp : (Prod.snd ∘ fun c =>
        (c, categoryTotal (weeklyTransactions ts ws we) c)) =
        categoryTotal (weeklyTransactions ts ws we) := rfl
    rw [hcomp]
    rw [sum_map_filter_of_zero]
    · exact categories_total_sum (weeklyTransactions ts ws we)
    · intro c _ h0
      apply categoryTotal_eq_zero_of_absent
      intro t ht
      by_contra hcat
      have : (weeklyTransactions ts ws we).any
          (fun t => decide (t.category = c)) = true := by
        rw [List.any_eq_true]
        exact ⟨t, ht, by simpa using hcat⟩
      rw [h0] at this
      cases this
  · intro c hc q hmem
    unfold categoryData at hmem
    rw [List.mem_map] at hmem
    obtain ⟨c', hc', heq⟩ := hmem
    have hcc : c' = c := congrArg Prod.fst heq
    subst hcc
    rw [List.mem_filter] at hc'
    have hany := hc'.2
    rw [List.any_eq_true] at hany
    obtain ⟨t, ht, hcat⟩ := hany
    exact hc t ht (by simpa using hcat)

/-- Witness for `categoryData_spec` at a concrete input: one Misc
transaction inside the window; the Social category is absent. -/
theorem categoryData_spec_witness :
    ((categoryData [mkTransaction "a" 100 Category.misc PaymentMethod.upi "" 10]
        0 1000).map Prod.snd).sum =
      sumInRange [mkTransaction "a" 100 Category.misc PaymentMethod.upi "" 10]
        0 1000 ∧
    (Category.social, (5 : ℚ)) ∉
      categoryData [mkTransaction "a" 100 Category.misc PaymentMethod.upi "" 10]
        0 1000 :=
  ⟨(categoryData_spec _ 0 1000).1,
   (categoryData_spec _ 0 1000).2 Category.social (by decide) 5⟩

/-- The monthly spend computation (`src/App.tsx` lines 417 and 424):
`transactions.filter(t => t.date >= startOfMonth(today))` reduced over
`amount`.  `monthStart` stands for the `startOfMonth(today)` instant;
note the source applies no upper bound. -/
def monthlySpent (ts : List Transaction) (monthStart : ℤ) : ℚ :=
  sumAmounts (ts.filter (fun t => decide (monthStart ≤ t.date)))

/-- **C4, counterexample.** A transaction dated strictly after the
month's end (date 200 against a month window `[0, 100]`) is counted by
the monthly spend computation — `monthlySpent` yields 100 while the sum
over the month's boundaries yields 0 — so the monthly total does not
exclude transactions dated after the month's end. -/
theorem monthlySpent_counterexample :
    monthlySpent
        [mkTransaction "f" 100 Category.messFood PaymentMethod.upi "" 200]
        0 = 100 ∧
    sumInRange
        [mkTransaction "f" 100 Category.messFood PaymentMethod.upi "" 200]
        0 100 = 0 ∧
    (100 : ℤ) < 200 := by
  refine ⟨?_, ?_, by decide⟩ <;>
    simp [monthlySpent, sumInRange, sumAmounts, mkTransaction]

/-- **C4, amended.** The monthly spent total sums the transactions whose
date is on or after the month's start, with no upper cutoff: it equals
the windowed sum over the calendar month's boundaries plus the amounts
of transactions dated after the month's end, so such transactions are
included rather than excluded. -/
theorem monthlySpent_decomposition (ts : List Transaction)
    (monthStart monthEnd : ℤ) (h : monthStart ≤ monthEnd) :
    monthlySpent ts monthStart =
      sumInRange ts monthStart monthEnd +
        sumAmounts (ts.filter (fun t => decide (monthEnd < t.date))) := by
  induction ts with
  | nil => simp [monthlySpent, sumInRange, sumAmounts]
  | cons t ts ih =>
    simp only [monthlySpent, sumInRange, List.filter_cons] at ih ⊢
    by_cases h1 : monthStart ≤ t.date
    · by_cases h2 : t.date ≤ monthEnd
      · have h3 : ¬ monthEnd < t.date := not_lt.mpr h2
        simp [h1, h2, h3]
        rw [sumAmounts_cons, sumAmounts_cons, ih]
        ring
      · have h3 : monthEnd < t.date := not_le.mp h2
        simp [h1, h2, h3]
        rw [sumAmounts_cons, sumAmounts_cons, ih]
        ring
    · have h2 : t.date < monthStart := not_le.mp h1
      have h3 : ¬ monthEnd < t.date :=
        not_lt.mpr (le_of_lt (lt_of_lt_of_le h2 h))
      simp [h1, h3]
      exact ih

/-- Witness for `monthlySpent_decomposition` at a concrete input: one
transaction dated after the month end `[0, 100]`. -/
theorem monthlySpent_decomposition_witness :
    (0 : ℤ) ≤ 100 ∧
    monthlySpent
        [mkTransaction "f" 100 Category.messFood PaymentMethod.upi "" 200]
        0 =
      sumInRange
          [mkTransaction "f" 100 Category.messFood PaymentMethod.upi "" 200]
          0 100 +
        sumAmounts
          ([mkTransaction "f" 100 Category.messFood PaymentMethod.upi "" 200].filter
            (fun t => decide ((100 : ℤ) < t.date))) :=
  ⟨by decide, monthlySpent_decomposition _ 0 100 (by decide)⟩

/-- The numeric value of a digit string, most significant first. -/
def digitsToNat (ds : List Char) : ℕ :=
  ds.foldl (fun a c => a * 10 + (c.toNat - 48)) 0

/-- The significand part of the host `parseFloat` grammar used at
`src/App.tsx` lines 212-214: integer digits, optionally a decimal point
and fraction digits (at least one digit overall), read from a prefix of
the input; the unconsumed suffix is returned for exponent parsing. -/
def parseSignificand (cs : List Char) : Option (ℚ × List Char) :=
  let ip := cs.takeWhile Char.isDigit
  let r1 := cs.dropWhile Char.isDigit
  match r1 with
  | '.' :: r2 =>
    let fp := r2.takeWhile Char.isDigit
    let r3 := r2.dropWhile Char.isDigit
    if ip.isEmpty && fp.isEmpty then none
    else some ((digitsToNat ip : ℚ) + (digitsToNat fp : ℚ) / 10 ^ fp.length, r3)
  | _ => if ip.isEmpty then none else some ((digitsToNat ip : ℚ), r1)

/-- The optional exponent part of the host `parseFloat` grammar:
`e`/`E`, an optional sign and digits scale the significand by a power of
ten; anything else leaves it unchanged (trailing garbage is ignored). -/
def applyExponent (q : ℚ) (cs : List Char) : ℚ :=
  match cs with
  | [] => q
  | c :: rest =>
    if c = 'e' ∨ c = 'E' then
      match rest with
      | '-' :: r2 =>
        let ds := r2.takeWhile Char.isDigit
        if ds.isEmpty then q else q / 10 ^ digitsToNat ds
      | '+' :: r2 =>
        let ds := r2.takeWhile Char.isDigit
        if ds.isEmpty then q else q * 10 ^ digitsToNat ds
      | r2 =>
        let ds := r2.takeWhile Char.isDigit
        if ds.isEmpty then q else q * 10 ^ digitsToNat ds
    else q

/-- The host `parseFloat` called at `src/App.tsx` lines 212 and 214:
after optional leading whitespace and an optional sign, parse the
longest decimal-literal prefix and ignore the rest; `none` models the
`NaN` result when no numeric prefix exists.  (The host's `Infinity`
result is not representable here and cannot arise from the numeric
input field feeding this call.) -/
def parseFloat (s : String) : Option ℚ :=
  match s.toList.dropWhile Char.isWhitespace with
  | '-' :: rest => (parseSignificand rest).map (fun p => -(applyExponent p.1 p.2))
  | '+' :: rest => (parseSignificand rest).map (fun p => applyExponent p.1 p.2)
  | rest => (parseSignificand rest).map (fun p => applyExponent p.1 p.2)

/-- The component state `handleAddTransaction` reads and writes
(`src/App.tsx` lines 136, 144-147). -/
structure AppState where
  transactions : List Transaction
  newAmount : String
  newCategory : Category
  newMethod : PaymentMethod
  newNote : String
  isAddModalOpen : Bool
deriving DecidableEq

/-- `handleAddTransaction` (`src/App.tsx` lines 210-219): if the amount
text is empty or does not parse to a number, return with no state
change; otherwise prepend a freshly constructed transaction (dated
`now`, carrying the generated `freshId`) and reset the form fields. -/
def handleAddTransaction (s : AppState) (freshId : String) (now : ℤ) :
    AppState :=
  if s.newAmount = "" then s
  else
    match parseFloat s.newAmount with
    | none => s
    | some a =>
      { s with
        transactions :=
          mkTransaction freshId a s.newCategory s.newMethod s.newNote now ::
            s.transactions,
        newAmount := "", newNote := "", isAddModalOpen := false }

/-- **C5.** When the amount text is empty or unparseable, transaction
creation is a silent no-op: the transaction list after
`handleAddTransaction` equals the list before, and indeed the whole
state is unchanged (no error is surfaced anywhere in it). -/
theorem handleAddTransaction_invalid_noop (s : AppState) (freshId : String)
    (now : ℤ) (h : s.newAmount = "" ∨ parseFloat s.newAmount = none) :
    (handleAddTransaction s freshId now).transactions = s.transactions ∧
    handleAddTransaction s freshId now = s := by
  have hs : handleAddTransaction s freshId now = s := by
    unfold handleAddTransaction
    rcases h with h | h
    · simp [h]
    · by_cases he : s.newAmount = ""
      · simp [he]
      · simp [he, h]
  exact ⟨by rw [hs], hs⟩

/-- Witness for `handleAddTransaction_invalid_noop` at a concrete
unparseable amount text. -/
theorem handleAddTransaction_invalid_noop_witness :
    ("abc" = "" ∨ parseFloat "abc" = none) ∧
    (handleAddTransaction
        ⟨[], "abc", Category.messFood, PaymentMethod.upi, "", true⟩
        "id1" 0).transactions = [] :=
  ⟨Or.inr (by decide),
   (handleAddTransaction_invalid_noop
      ⟨[], "abc", Category.messFood, PaymentMethod.upi, "", true⟩
      "id1" 0 (Or.inr (by decide))).1⟩

/-- **C10.** Adding a transaction with a parseable, non-empty amount text
prepends the freshly constructed record to the head of the transaction
list and leaves every existing transaction unchanged: the resulting list
is the new transaction followed by the previous list. -/
theorem handleAddTransaction_prepends (s : AppState) (freshId : String)
    (now : ℤ) (a : ℚ) (hne : s.newAmount ≠ "")
    (hp : parseFloat s.newAmount = some a) :
    (handleAddTransaction s freshId now).transactions =
      mkTransaction freshId a s.newCategory s.newMethod s.newNote now ::
        s.transactions := by
  unfold handleAddTransaction
  simp [hne, hp]

/-- Witness for `handleAddTransaction_prepends` at a concrete parseable
amount text. -/
theorem handleAddTransaction_prepends_witness :
    ("100" ≠ "") ∧ parseFloat "100" = some 100 ∧
    (handleAddTransaction
        ⟨[], "100", Category.messFood, PaymentMethod.upi, "note", true⟩
        "id1" 7).transactions =
      [mkTransaction "id1" 100 Category.messFood PaymentMethod.upi "note" 7] :=
  ⟨by decide, by rfl,
   handleAddTransaction_prepends
     ⟨[], "100", Category.messFood, PaymentMethod.upi, "note", true⟩
     "id1" 7 100 (by decide) (by rfl)⟩

end PaisaTrack
